import Mathlib

/-!
Shallow embedding of `splinter`'s `sandstorm` buffer module
(`src/sandstorm/src/buf.rs`) and of the message-recording test double
(`src/sandstorm/src/mock.rs`).

Bytes are modelled as natural numbers; a `bytes::BytesMut` (version 0.4, the
one the crate builds against and whose semantics the repository's own
overflow tests pin down) is a list of bytes together with a fixed allocated
capacity.  `BufMut::put_slice` on a 0.4 `BytesMut` asserts
`remaining_mut() >= src.len()` with `remaining_mut() = capacity() - len()`
and panics otherwise; a panic is modelled as `none`, a completed call as
`some` of the updated buffer.
-/

namespace Splinter

/-- Model of `bytes::BytesMut` (v0.4): the bytes currently written plus
the total allocated capacity. -/
structure BytesMut where
  data : List Nat
  cap : Nat
deriving Repr, DecidableEq

/-- `BytesMut::len`. -/
def BytesMut.len (b : BytesMut) : Nat := b.data.length

/-- `BufMut::remaining_mut` for a v0.4 `BytesMut`: `capacity() - len()`. -/
def BytesMut.remaining_mut (b : BytesMut) : Nat := b.cap - b.data.length

/-- `BufMut::put_slice` for a v0.4 `BytesMut`: asserts that the slice fits
into the remaining capacity (panic modelled as `none`), then appends the
bytes. -/
def BytesMut.put_slice (b : BytesMut) (src : List Nat) : Option BytesMut :=
  if src.length ≤ b.remaining_mut then some ⟨b.data ++ src, b.cap⟩ else none

/-- Little-endian base-256 digits of `v`, exactly `n` bytes
(`byteorder::LittleEndian::write_uint`). -/
def leBytes : Nat → Nat → List Nat
  | 0, _ => []
  | n + 1, v => v % 256 :: leBytes n (v / 256)

/-- Big-endian encoding: the reverse of the little-endian one
(`byteorder::BigEndian`). -/
def beBytes (n v : Nat) : List Nat := (leBytes n v).reverse

/-- `ReadBuf` from `buf.rs`: a wrapper over an immutable byte region. -/
structure ReadBuf where
  inner : List Nat
deriving Repr, DecidableEq

/-- `ReadBuf::new`. -/
def ReadBuf.new (buffer : List Nat) : ReadBuf := ⟨buffer⟩

/-- `ReadBuf::len`. -/
def ReadBuf.len (b : ReadBuf) : Nat := b.inner.length

/-- `ReadBuf::is_empty`. -/
def ReadBuf.is_empty (b : ReadBuf) : Bool := b.inner.isEmpty

/-- `ReadBuf::read`. -/
def ReadBuf.read (b : ReadBuf) : List Nat := b.inner

/-- `WriteBuf` from `buf.rs`: destination table identifier, the inner
`BytesMut`, and the number of metadata prefix bytes captured at
construction. -/
structure WriteBuf where
  table : Nat
  inner : BytesMut
  meta_len : Nat
deriving Repr, DecidableEq

/-- `WriteBuf::new`: wraps the buffer, capturing its current length as
`meta_len`. -/
def WriteBuf.new (table : Nat) (buffer : BytesMut) : WriteBuf :=
  ⟨table, buffer, buffer.data.length⟩

/-- `WriteBuf::len`: bytes written by the extension so far. -/
def WriteBuf.len (w : WriteBuf) : Nat := w.inner.data.length - w.meta_len

/-- `WriteBuf::capacity`: total bytes the extension may write. -/
def WriteBuf.capacity (w : WriteBuf) : Nat := w.inner.cap - w.meta_len

/-- `WriteBuf::write_slice`: appends a slice via `put_slice`; a capacity
overflow panic is modelled as `none`. -/
def WriteBuf.write_slice (w : WriteBuf) (data : List Nat) : Option WriteBuf :=
  (w.inner.put_slice data).map fun b => ⟨w.table, b, w.meta_len⟩

/-- `WriteBuf::write_u8` (`put_u8` writes the single byte). -/
def WriteBuf.write_u8 (w : WriteBuf) (data : Nat) : Option WriteBuf :=
  w.write_slice (leBytes 1 data)

/-- `WriteBuf::write_u16`: little-endian when `le`, big-endian otherwise. -/
def WriteBuf.write_u16 (w : WriteBuf) (data : Nat) (le : Bool) : Option WriteBuf :=
  match le with
  | true => w.write_slice (leBytes 2 data)
  | false => w.write_slice (beBytes 2 data)

/-- `WriteBuf::write_u32`: little-endian when `le`, big-endian otherwise. -/
def WriteBuf.write_u32 (w : WriteBuf) (data : Nat) (le : Bool) : Option WriteBuf :=
  match le with
  | true => w.write_slice (leBytes 4 data)
  | false => w.write_slice (beBytes 4 data)

/-- `WriteBuf::write_u64`: little-endian when `le`, big-endian otherwise. -/
def WriteBuf.write_u64 (w : WriteBuf) (data : Nat) (le : Bool) : Option WriteBuf :=
  match le with
  | true => w.write_slice (leBytes 8 data)
  | false => w.write_slice (beBytes 8 data)

/-- `WriteBuf::freeze`: consumes the buffer, returning the table identifier
and the full byte region (`BytesMut::freeze` keeps the bytes as they are). -/
def WriteBuf.freeze (w : WriteBuf) : Nat × List Nat := (w.table, w.inner.data)

/-- The well-formedness invariant of a `WriteBuf`:
`meta_len <= inner.len() <= inner.capacity()`. -/
def WriteBuf.WF (w : WriteBuf) : Prop :=
  w.meta_len ≤ w.inner.data.length ∧ w.inner.data.length ≤ w.inner.cap

instance (w : WriteBuf) : Decidable w.WF :=
  inferInstanceAs (Decidable (_ ≤ _ ∧ _ ≤ _))

/-- One public write operation on a `WriteBuf`, with its arguments. -/
inductive WOp
  | slice (data : List Nat)
  | u8 (data : Nat)
  | u16 (data : Nat) (le : Bool)
  | u32 (data : Nat) (le : Bool)
  | u64 (data : Nat) (le : Bool)
deriving Repr, DecidableEq

/-- The byte sequence a write operation appends when it succeeds. -/
def WOp.bytes : WOp → List Nat
  | .slice data => data
  | .u8 d => leBytes 1 d
  | .u16 d le => if le then leBytes 2 d else beBytes 2 d
  | .u32 d le => if le then leBytes 4 d else beBytes 4 d
  | .u64 d le => if le then leBytes 8 d else beBytes 8 d

/-- Dispatch of a write operation to the corresponding `WriteBuf` method. -/
def WriteBuf.applyOp (w : WriteBuf) : WOp → Option WriteBuf
  | .slice data => w.write_slice data
  | .u8 d => w.write_u8 d
  | .u16 d le => w.write_u16 d le
  | .u32 d le => w.write_u32 d le
  | .u64 d le => w.write_u64 d le

/-- A sequence of write operations, stopping at the first aborting one. -/
def WriteBuf.applyOps (w : WriteBuf) : List WOp → Option WriteBuf
  | [] => some w
  | op :: ops => (w.applyOp op).bind fun w2 => w2.applyOps ops

/-- The message-recording test double from `mock.rs`. -/
structure MockDB where
  messages : List String
deriving Repr, DecidableEq

/-- `MockDB::new`. -/
def MockDB.new : MockDB := ⟨[]⟩

/-- `MockDB::debug_log`: pushes the message onto the recorded sequence. -/
def MockDB.debug_log (db : MockDB) (message : String) : MockDB :=
  ⟨db.messages ++ [message]⟩

/-- `MockDB::clear_messages`. -/
def MockDB.clear_messages (_db : MockDB) : MockDB := ⟨[]⟩

/-- `MockDB::assert_messages`: the contained `assert_eq!` succeeds exactly
when the expected sequence equals the recorded one. -/
def MockDB.assert_messages (db : MockDB) (expected : List String) : Bool :=
  expected == db.messages

/-! ### Helper lemmas -/

theorem leBytes_length (n v : Nat) : (leBytes n v).length = n := by
  induction n generalizing v with
  | zero => rfl
  | succ n ih => simp [leBytes, ih]

theorem beBytes_length (n v : Nat) : (beBytes n v).length = n := by
  simp [beBytes, leBytes_length]

theorem ofDigits_leBytes (n v : Nat) :
    Nat.ofDigits 256 (leBytes n v) = v % 256 ^ n := by
  induction n generalizing v with
  | zero => simp [leBytes, Nat.mod_one]
  | succ n ih =>
    rw [leBytes, Nat.ofDigits_cons, ih, pow_succ', Nat.mod_mul]

theorem write_slice_eq (w : WriteBuf) (data : List Nat) :
    w.write_slice data =
      if data.length ≤ w.inner.cap - w.inner.data.length
      then some ⟨w.table, ⟨w.inner.data ++ data, w.inner.cap⟩, w.meta_len⟩
      else none := by
  simp only [WriteBuf.write_slice, BytesMut.put_slice, BytesMut.remaining_mut]
  split <;> rfl

theorem applyOp_eq (w : WriteBuf) (op : WOp) :
    w.applyOp op = w.write_slice op.bytes := by
  cases op with
  | slice data => rfl
  | u8 d => rfl
  | u16 d le => cases le <;> rfl
  | u32 d le => cases le <;> rfl
  | u64 d le => cases le <;> rfl

theorem applyOp_some (w : WriteBuf) (op : WOp) (w' : WriteBuf)
    (h : w.applyOp op = some w') :
    w'.table = w.table ∧ w'.meta_len = w.meta_len ∧ w'.inner.cap = w.inner.cap ∧
    w'.inner.data = w.inner.data ++ op.bytes ∧
    op.bytes.length ≤ w.inner.cap - w.inner.data.length := by
  rw [applyOp_eq, write_slice_eq] at h
  split at h
  · next hc =>
    cases h
    exact ⟨rfl, rfl, rfl, rfl, hc⟩
  · exact absurd h (by simp)

theorem applyOp_WF (w : WriteBuf) (op : WOp) (w' : WriteBuf)
    (hWF : w.WF) (h : w.applyOp op = some w') : w'.WF := by
  obtain ⟨hm, hc⟩ := hWF
  obtain ⟨_, h2, h3, h4, h5⟩ := applyOp_some w op w' h
  constructor
  · rw [h2, h4, List.length_append]
    omega
  · rw [h3, h4, List.length_append]
    omega

theorem applyOps_some (ops : List WOp) (w w' : WriteBuf)
    (h : w.applyOps ops = some w') :
    w'.table = w.table ∧ w'.meta_len = w.meta_len ∧ w'.inner.cap = w.inner.cap ∧
    w'.inner.data = w.inner.data ++ (ops.map WOp.bytes).flatten := by
  induction ops generalizing w with
  | nil =>
    simp only [WriteBuf.applyOps, Option.some.injEq] at h
    subst h
    simp
  | cons op ops ih =>
    simp only [WriteBuf.applyOps, Option.bind_eq_some] at h
    obtain ⟨w2, h1, h2⟩ := h
    obtain ⟨g1, g2, g3, g4, _⟩ := applyOp_some w op w2 h1
    obtain ⟨k1, k2, k3, k4⟩ := ih w2 h2
    refine ⟨k1.trans g1, k2.trans g2, k3.trans g3, ?_⟩
    rw [k4, g4]
    simp [List.append_assoc]

theorem applyOps_WF (ops : List WOp) (w w' : WriteBuf) (hWF : w.WF)
    (h : w.applyOps ops = some w') : w'.WF := by
  induction ops generalizing w with
  | nil =>
    simp only [WriteBuf.applyOps, Option.some.injEq] at h
    subst h
    exact hWF
  | cons op ops ih =>
    simp only [WriteBuf.applyOps, Option.bind_eq_some] at h
    obtain ⟨w2, h1, h2⟩ := h
    exact ih w2 (applyOp_WF w op w2 hWF h1) h2

theorem foldl_debug_log (msgs : List String) (db : MockDB) :
    (msgs.foldl MockDB.debug_log db).messages = db.messages ++ msgs := by
  induction msgs generalizing db with
  | nil => simp
  | cons m ms ih => simp [List.foldl, ih, MockDB.debug_log]

/-! ### Claim theorems -/

/-- C1: on a well-formed `WriteBuf`, `write_slice` aborts (returns `none`,
modelling the panic) exactly when the slice is longer than the remaining
space `capacity() - len()`, and completes otherwise; `write_u8`,
`write_u16`, `write_u32` and `write_u64` follow the same policy with their
encoding lengths 1, 2, 4 and 8. -/
theorem C1_overflow_policy (w : WriteBuf) (data : List Nat) (d : Nat)
    (le : Bool) (hWF : w.WF) :
    (w.write_slice data = none ↔ w.capacity - w.len < data.length) ∧
    (w.write_u8 d = none ↔ w.capacity - w.len < 1) ∧
    (w.write_u16 d le = none ↔ w.capacity - w.len < 2) ∧
    (w.write_u32 d le = none ↔ w.capacity - w.len < 4) ∧
    (w.write_u64 d le = none ↔ w.capacity - w.len < 8) := by
  obtain ⟨hm, hc⟩ := hWF
  have key : ∀ s : List Nat,
      (w.write_slice s = none ↔ w.capacity - w.len < s.length) := by
    intro s
    rw [write_slice_eq]
    unfold WriteBuf.capacity WriteBuf.len
    split
    · next h => simp only [reduceCtorEq, false_iff]; omega
    · next h => simp only [true_iff]; omega
  refine ⟨key data, ?_, ?_, ?_, ?_⟩
  · rw [WriteBuf.write_u8, key, leBytes_length]
  · cases le
    · rw [WriteBuf.write_u16, key, beBytes_length]
    · rw [WriteBuf.write_u16, key, leBytes_length]
  · cases le
    · rw [WriteBuf.write_u32, key, beBytes_length]
    · rw [WriteBuf.write_u32, key, leBytes_length]
  · cases le
    · rw [WriteBuf.write_u64, key, beBytes_length]
    · rw [WriteBuf.write_u64, key, leBytes_length]

/-- Witness for C1 at a concrete buffer: a 3-byte write into 2 remaining
bytes aborts. -/
theorem C1_overflow_policy_witness :
    (WriteBuf.new 5 ⟨[9, 9], 4⟩).write_slice [1, 2, 3] = none :=
  (C1_overflow_policy (WriteBuf.new 5 ⟨[9, 9], 4⟩) [1, 2, 3] 0 true
    (by decide)).1.mpr (by decide)

/-- C2: a `write_slice` of a slice that fits into the remaining space
completes, grows `len()` by exactly the slice length, appends the bytes
verbatim after the previously written bytes, and leaves the `meta_len`-byte
host prefix unchanged; writing the empty slice is a no-op. -/
theorem C2_append (w : WriteBuf) (data : List Nat) (hWF : w.WF)
    (h : data.length ≤ w.capacity - w.len) :
    (∃ w', w.write_slice data = some w' ∧
      w'.len = w.len + data.length ∧
      w'.inner.data = w.inner.data ++ data ∧
      w'.inner.data.drop w.meta_len = w.inner.data.drop w.meta_len ++ data ∧
      w'.inner.data.take w.meta_len = w.inner.data.take w.meta_len ∧
      w'.meta_len = w.meta_len) ∧
    w.write_slice [] = some w := by
  obtain ⟨hm, hc⟩ := hWF
  unfold WriteBuf.capacity WriteBuf.len at h
  constructor
  · refine ⟨⟨w.table, ⟨w.inner.data ++ data, w.inner.cap⟩, w.meta_len⟩, ?_,
      ?_, rfl, ?_, ?_, rfl⟩
    · rw [write_slice_eq, if_pos (by omega)]
    · unfold WriteBuf.len
      simp only [List.length_append]
      omega
    · exact List.drop_append_of_le_length hm
    · exact List.take_append_of_le_length hm
  · rw [write_slice_eq, if_pos (by simp)]
    simp

/-- Witness for C2 at a concrete buffer with a one-byte host prefix. -/
theorem C2_append_witness :
    (∃ w', (WriteBuf.new 4 ⟨[9], 5⟩).write_slice [7, 8] = some w' ∧
      w'.len = 0 + ([7, 8] : List Nat).length ∧
      w'.inner.data = [9] ++ [7, 8] ∧
      w'.inner.data.drop 1 = ([9] : List Nat).drop 1 ++ [7, 8] ∧
      w'.inner.data.take 1 = ([9] : List Nat).take 1 ∧
      w'.meta_len = 1) ∧
    (WriteBuf.new 4 ⟨[9], 5⟩).write_slice [] = some (WriteBuf.new 4 ⟨[9], 5⟩) :=
  C2_append (WriteBuf.new 4 ⟨[9], 5⟩) [7, 8] (by decide) (by decide)

/-- C3: after any sequence of successful write operations on a freshly
constructed `WriteBuf`, `freeze` returns exactly the table identifier the
buffer was constructed with, paired with the host prefix followed by all
appended byte sequences in call order. -/
theorem C3_freeze (t : Nat) (buf : BytesMut) (ops : List WOp) (w : WriteBuf)
    (h : (WriteBuf.new t buf).applyOps ops = some w) :
    w.freeze = (t, buf.data ++ (ops.map WOp.bytes).flatten) := by
  obtain ⟨h1, _, _, h4⟩ := applyOps_some ops (WriteBuf.new t buf) w h
  unfold WriteBuf.freeze
  rw [h1, h4]
  rfl

/-- Witness for C3: one `write_u8` and one `write_slice` on a buffer with a
one-byte prefix. -/
theorem C3_freeze_witness :
    WriteBuf.freeze ⟨7, ⟨[1, 2, 3, 4], 5⟩, 1⟩ =
      (7, [1] ++ (([WOp.u8 2, WOp.slice [3, 4]].map WOp.bytes)).flatten) :=
  C3_freeze 7 ⟨[1], 5⟩ [WOp.u8 2, WOp.slice [3, 4]] ⟨7, ⟨[1, 2, 3, 4], 5⟩, 1⟩
    (by decide)

/-- C4: `WriteBuf::new` captures the buffer's current length `m` as
`meta_len`; right after construction `len()` is `0` and `capacity()` is the
total capacity `c` minus `m`. -/
theorem C4_new (t : Nat) (buf : BytesMut) (_h : buf.data.length ≤ buf.cap) :
    (WriteBuf.new t buf).meta_len = buf.data.length ∧
    (WriteBuf.new t buf).len = 0 ∧
    (WriteBuf.new t buf).capacity = buf.cap - buf.data.length :=
  ⟨rfl, by simp [WriteBuf.len, WriteBuf.new], rfl⟩

/-- Witness for C4 at a concrete buffer of length 2 and capacity 7. -/
theorem C4_new_witness :
    (WriteBuf.new 2 ⟨[5, 6], 7⟩).meta_len = 2 ∧
    (WriteBuf.new 2 ⟨[5, 6], 7⟩).len = 0 ∧
    (WriteBuf.new 2 ⟨[5, 6], 7⟩).capacity = 7 - 2 :=
  C4_new 2 ⟨[5, 6], 7⟩ (by decide)

/-- C5: `WriteBuf::new` over a valid `BytesMut` establishes the invariant
`meta_len <= inner.len() <= inner.capacity()`, every successful write
operation preserves it, the inner length never decreases, and the
previously written bytes stay a prefix of the new contents (nothing is
truncated, rewound or overwritten). -/
theorem C5_invariant :
    (∀ (t : Nat) (buf : BytesMut),
      buf.data.length ≤ buf.cap → (WriteBuf.new t buf).WF) ∧
    (∀ (w : WriteBuf) (op : WOp) (w' : WriteBuf),
      w.WF → w.applyOp op = some w' →
      w'.WF ∧ w.inner.data.length ≤ w'.inner.data.length ∧
        w.inner.data <+: w'.inner.data) := by
  constructor
  · intro t buf h
    exact ⟨le_refl _, h⟩
  · intro w op w' hWF h
    obtain ⟨_, _, _, h4, _⟩ := applyOp_some w op w' h
    refine ⟨applyOp_WF w op w' hWF h, ?_, ⟨op.bytes, h4.symm⟩⟩
    rw [h4, List.length_append]
    omega

/-- Witness for C5: construction over a one-byte buffer of capacity 2, then
a successful `write_u8`. -/
theorem C5_invariant_witness :
    (WriteBuf.new 3 ⟨[1], 2⟩).WF ∧
    (WriteBuf.WF ⟨3, ⟨[1, 7], 2⟩, 1⟩ ∧
      ([1] : List Nat).length ≤ ([1, 7] : List Nat).length ∧
      [1] <+: [1, 7]) :=
  ⟨C5_invariant.1 3 ⟨[1], 2⟩ (by decide),
   C5_invariant.2 (WriteBuf.new 3 ⟨[1], 2⟩) (WOp.u8 7) ⟨3, ⟨[1, 7], 2⟩, 1⟩
     (by decide) (by decide)⟩

/-- C6: `ReadBuf::new` wraps the region unchanged: `len()` is the region's
length, `read()` returns the region itself, and `is_empty()` holds exactly
when the region has length zero; all three are pure and total. -/
theorem C6_readbuf (r : List Nat) :
    (ReadBuf.new r).len = r.length ∧
    (ReadBuf.new r).read = r ∧
    ((ReadBuf.new r).is_empty = true ↔ r.length = 0) := by
  refine ⟨rfl, rfl, ?_⟩
  simp [ReadBuf.new, ReadBuf.is_empty, List.isEmpty_iff, List.length_eq_zero]

/-- C7: each typed write appends, via `write_slice` (hence with its
overflow policy), exactly the 1-, 2-, 4- or 8-byte encoding of the value:
little-endian base-256 digits when the flag is true and their reverse
(big-endian) when it is false, the digits reassembling to the value modulo
the type's width; the claim's concrete encodings hold. -/
theorem C7_endianness (w : WriteBuf) (d : Nat) (le : Bool) :
    w.write_u8 d = w.write_slice (leBytes 1 d) ∧
    w.write_u16 d le = w.write_slice (if le then leBytes 2 d else beBytes 2 d) ∧
    w.write_u32 d le = w.write_slice (if le then leBytes 4 d else beBytes 4 d) ∧
    w.write_u64 d le = w.write_slice (if le then leBytes 8 d else beBytes 8 d) ∧
    (leBytes 1 d).length = 1 ∧ (leBytes 2 d).length = 2 ∧
    (leBytes 4 d).length = 4 ∧ (leBytes 8 d).length = 8 ∧
    (beBytes 2 d).length = 2 ∧ (beBytes 4 d).length = 4 ∧
    (beBytes 8 d).length = 8 ∧
    beBytes 8 d = (leBytes 8 d).reverse ∧
    Nat.ofDigits 256 (leBytes 1 d) = d % 2 ^ 8 ∧
    Nat.ofDigits 256 (leBytes 2 d) = d % 2 ^ 16 ∧
    Nat.ofDigits 256 (leBytes 4 d) = d % 2 ^ 32 ∧
    Nat.ofDigits 256 (leBytes 8 d) = d % 2 ^ 64 ∧
    leBytes 2 258 = [2, 1] ∧ beBytes 2 258 = [1, 2] ∧
    leBytes 8 8674083586 = [2, 3, 4, 5, 2, 0, 0, 0] ∧
    beBytes 8 8674083586 = [0, 0, 0, 2, 5, 4, 3, 2] := by
  refine ⟨rfl, ?_, ?_, ?_, leBytes_length 1 d, leBytes_length 2 d,
    leBytes_length 4 d, leBytes_length 8 d, beBytes_length 2 d,
    beBytes_length 4 d, beBytes_length 8 d, rfl, ?_, ?_, ?_, ?_,
    by decide, by decide, by decide, by decide⟩
  · cases le <;> rfl
  · cases le <;> rfl
  · cases le <;> rfl
  · rw [ofDigits_leBytes]; norm_num
  · rw [ofDigits_leBytes]; norm_num
  · rw [ofDigits_leBytes]; norm_num
  · rw [ofDigits_leBytes]; norm_num

/-- C8: folding `debug_log` over any message sequence from a fresh `MockDB`
records exactly that sequence in call order, `assert_messages` succeeds
exactly on that sequence, and `clear_messages` leaves the record empty;
`debug_log` is total. -/
theorem C8_mockdb (msgs expected : List String) :
    (msgs.foldl MockDB.debug_log MockDB.new).messages = msgs ∧
    ((msgs.foldl MockDB.debug_log MockDB.new).assert_messages expected = true ↔
      expected = msgs) ∧
    (msgs.foldl MockDB.debug_log MockDB.new).clear_messages.messages = [] := by
  have h := foldl_debug_log msgs MockDB.new
  simp only [MockDB.new, List.nil_append] at h
  refine ⟨h, ?_, rfl⟩
  simp [MockDB.assert_messages, MockDB.new, h]

/-- C9: a successful write operation changes neither `capacity()` nor the
table identifier nor the inner allocation size nor `meta_len`: the
capacity is a constant of the instance, not decremented by writes. -/
theorem C9_frame (w : WriteBuf) (op : WOp) (w' : WriteBuf)
    (h : w.applyOp op = some w') :
    w'.capacity = w.capacity ∧ w'.table = w.table ∧
    w'.inner.cap = w.inner.cap ∧ w'.meta_len = w.meta_len := by
  obtain ⟨h1, h2, h3, _, _⟩ := applyOp_some w op w' h
  exact ⟨by unfold WriteBuf.capacity; rw [h2, h3], h1, h3, h2⟩

/-- Witness for C9: a `write_u8` on a buffer with a two-byte prefix. -/
theorem C9_frame_witness :
    WriteBuf.capacity ⟨6, ⟨[1, 2, 9], 8⟩, 2⟩ =
      (WriteBuf.new 6 ⟨[1, 2], 8⟩).capacity ∧
    WriteBuf.table ⟨6, ⟨[1, 2, 9], 8⟩, 2⟩ = 6 ∧
    BytesMut.cap ⟨[1, 2, 9], 8⟩ = 8 ∧
    WriteBuf.meta_len ⟨6, ⟨[1, 2, 9], 8⟩, 2⟩ = 2 :=
  C9_frame (WriteBuf.new 6 ⟨[1, 2], 8⟩) (WOp.u8 9) ⟨6, ⟨[1, 2, 9], 8⟩, 2⟩
    (by decide)

/-- C10: in every state reachable from `WriteBuf::new` over a valid
`BytesMut` through successful write operations, `meta_len` is at most the
inner length and at most the inner capacity, so the subtractions inside
`len()` and `capacity()` never underflow. -/
theorem C10_no_underflow (t : Nat) (buf : BytesMut) (ops : List WOp)
    (w : WriteBuf) (hbuf : buf.data.length ≤ buf.cap)
    (h : (WriteBuf.new t buf).applyOps ops = some w) :
    w.meta_len ≤ w.inner.data.length ∧ w.meta_len ≤ w.inner.cap := by
  have hWF : (WriteBuf.new t buf).WF := ⟨le_refl _, hbuf⟩
  obtain ⟨a, b⟩ := applyOps_WF ops (WriteBuf.new t buf) w hWF h
  exact ⟨a, le_trans a b⟩

/-- Witness for C10: one successful `write_u8` after construction over a
one-byte buffer of capacity 3. -/
theorem C10_no_underflow_witness :
    WriteBuf.meta_len ⟨1, ⟨[4, 5], 3⟩, 1⟩ ≤
      (BytesMut.data ⟨[4, 5], 3⟩).length ∧
    WriteBuf.meta_len ⟨1, ⟨[4, 5], 3⟩, 1⟩ ≤ BytesMut.cap ⟨[4, 5], 3⟩ :=
  C10_no_underflow 1 ⟨[4], 3⟩ [WOp.u8 5] ⟨1, ⟨[4, 5], 3⟩, 1⟩ (by decide)
    (by decide)

end Splinter
